import Mathlib

/-!
Shallow embedding of the wikirace-events scraper pipeline
(`src/scraper/main.py`, `src/scraper/sources/common.py`, `src/scraper/models.py`).

Python strings are modelled as `List Char` (`Str`).  Python `str.lower` /
`str.upper` are modelled with `Char.toLower` / `Char.toUpper`, which agree
with Python on ASCII (all keywords, URLs and ids the code manipulates are
ASCII).  Python regex `\s` is modelled with `Char.isWhitespace`
(space, tab, CR, LF), and `\w` with `[A-Za-z0-9_]`.  Python `float` is
modelled as `ℚ` (exact); nothing proved here depends on rounding.
`datetime.date` values are modelled by their proleptic-Gregorian ordinal
(rata die) as an `Int`; `datetime.utcnow().date()` is a parameter
`todayOrd`.  Python dicts (which preserve insertion order) are modelled as
association lists with dict-style assignment (update in place, else append).
-/

namespace WikiRace

abbrev Str := List Char

/-- Python `needle in hay` substring test. -/
def inStr (needle hay : Str) : Bool := decide (needle <:+: hay)

/-- Python `str.lower()` (ASCII). -/
def pyLower (s : Str) : Str := s.map Char.toLower

/-- Python `str.upper()` (ASCII). -/
def pyUpper (s : Str) : Str := s.map Char.toUpper

/-- Replace each maximal run of characters satisfying `p` by a single space. -/
def collapseRuns (p : Char → Bool) : Str → Str
  | [] => []
  | [c] => [if p c then ' ' else c]
  | c1 :: c2 :: cs =>
    if p c1 && p c2 then collapseRuns p (c2 :: cs)
    else (if p c1 then ' ' else c1) :: collapseRuns p (c2 :: cs)

/-- Drop leading and trailing spaces (the only whitespace left after a collapse). -/
def stripSpaces (s : Str) : Str :=
  ((s.dropWhile (· = ' ')).reverse.dropWhile (· = ' ')).reverse

/-- common.py `clean_text` on a non-null string:
`re.sub(r"\s+", " ", value).strip()`. -/
def clean_text (s : Str) : Str := stripSpaces (collapseRuns Char.isWhitespace s)

/-- common.py `clean_text` including the `if not value: return ""` branch. -/
def cleanTextOpt : Option Str → Str
  | none => []
  | some s => clean_text s

/-- Python f-string `f"{a} {b} {c}"`. -/
def joinSp (a b c : Str) : Str := a ++ ' ' :: (b ++ ' ' :: c)

/-- Python regex word character `[A-Za-z0-9_]` (ASCII). -/
def isWordChar (c : Char) : Bool := c.isAlphanum || c = '_'

/-- Occurrence of `kw` in `hay` with a regex word boundary `\b` on both
sides, i.e. the character before (resp. after) the occurrence, when it
exists, is not a word character.  All keywords used below start and end
with word characters, for which this is exactly Python `\b...\b`. -/
def occursWB (kw hay : Str) : Bool :=
  (List.range (hay.length + 1)).any fun i =>
    kw.isPrefixOf (hay.drop i)
    && (decide (i = 0) || !isWordChar (hay.getD (i - 1) ' '))
    && (match (hay.drop (i + kw.length)).head? with
        | none => true
        | some c => !isWordChar c)

/-- Alternatives of common.py `NOISE_PATTERN`. -/
def NOISE_KEYWORDS : List Str :=
  ["membership".data, "volunteer".data, "volunteers".data, "training".data,
   "camp".data, "clinic".data, "coaching".data, "fundraiser".data,
   "fundraising".data, "charity gala".data, "party".data,
   "festival volunteers".data, "reservation".data, "reservations".data,
   "lottery".data, "raffle".data, "summit".data, "expo only".data,
   "sponsor".data, "team membership".data, "subscription".data,
   "grand prix series".data]

/-- common.py `is_noise_event`. -/
def is_noise_event (name distances description : Str) : Bool :=
  let haystack := pyLower (clean_text (joinSp name distances description))
  if haystack = [] then true
  else NOISE_KEYWORDS.any fun kw => occursWB kw haystack

/-- common.py `infer_distance`. -/
def infer_distance (name distances discipline_hint : Str) : Str :=
  let text := pyLower (clean_text (joinSp name distances discipline_hint))
  if inStr "70.3".data text || inStr "half ironman".data text then "Half Ironman".data
  else if inStr "5k".data text || inStr "5 km".data text then "5km".data
  else if inStr "10k".data text || inStr "10 km".data text then "10km".data
  else if inStr "half marathon".data text || occursWB "21k".data text then "Half Marathon".data
  else if inStr "marathon".data text then "Marathon".data
  else if inStr "ultra".data text || inStr "50k".data text || inStr "100k".data text
          || inStr "50 mile".data text || inStr "100 mile".data text
          || inStr "trail".data text then "Ultra Trail".data
  else if inStr "ironman".data text || inStr "triathlon".data text
          || inStr "duathlon".data text then "Ironman".data
  else if inStr "running".data text then "10km".data
  else "Marathon".data

/-- Rule table transcribing the spec's fixed priority order for
`inferDistance` (spec section 4.1): Half-Ironman triggers, `5k`, `10k`,
half-marathon triggers, `marathon`, ultra/trail triggers, triathlon
triggers, generic `running`, default `Marathon`. -/
def specDistanceRules : List ((Str → Bool) × Str) :=
  [(fun t => inStr "70.3".data t || inStr "half ironman".data t, "Half Ironman".data),
   (fun t => inStr "5k".data t || inStr "5 km".data t, "5km".data),
   (fun t => inStr "10k".data t || inStr "10 km".data t, "10km".data),
   (fun t => inStr "half marathon".data t || occursWB "21k".data t, "Half Marathon".data),
   (fun t => inStr "marathon".data t, "Marathon".data),
   (fun t => inStr "ultra".data t || inStr "50k".data t || inStr "100k".data t
             || inStr "50 mile".data t || inStr "100 mile".data t
             || inStr "trail".data t, "Ultra Trail".data),
   (fun t => inStr "ironman".data t || inStr "triathlon".data t
             || inStr "duathlon".data t, "Ironman".data),
   (fun t => inStr "running".data t, "10km".data)]

/-- First rule of `rules` whose test accepts `t` wins; otherwise `dflt`. -/
def specFirstMatch : List ((Str → Bool) × Str) → Str → Str → Str
  | [], _, dflt => dflt
  | (p, v) :: rs, t, dflt => if p t then v else specFirstMatch rs t dflt

/-! Date handling: `strptime(date_iso, "%Y-%m-%d")` and date comparison. -/

def allDigits (s : Str) : Bool := s.all Char.isDigit

/-- Decimal value of a digit string (most significant digit first). -/
def digitsToNat (s : Str) : Nat := s.foldl (fun acc c => 10 * acc + (c.toNat - 48)) 0

def isLeap (y : Nat) : Bool := (y % 4 = 0 && y % 100 ≠ 0) || y % 400 = 0

def daysInMonth (y m : Nat) : Nat :=
  match m with
  | 1 => 31 | 2 => if isLeap y then 29 else 28 | 3 => 31 | 4 => 30
  | 5 => 31 | 6 => 30 | 7 => 31 | 8 => 31
  | 9 => 30 | 10 => 31 | 11 => 30 | 12 => 31
  | _ => 0

def daysBeforeMonth (y m : Nat) : Nat :=
  let feb : Nat := if isLeap y then 29 else 28
  match m with
  | 1 => 0 | 2 => 31 | 3 => 31 + feb | 4 => 62 + feb
  | 5 => 92 + feb | 6 => 123 + feb | 7 => 153 + feb | 8 => 184 + feb
  | 9 => 215 + feb | 10 => 245 + feb | 11 => 276 + feb | 12 => 306 + feb
  | _ => 0

/-- Proleptic-Gregorian ordinal (rata die): `toOrdinal 1 1 1 = 1`, matching
Python `datetime.date.toordinal`. -/
def toOrdinal (y m d : Nat) : Int :=
  365 * ((y : Int) - 1)
    + ((y - 1) / 4 - (y - 1) / 100 + (y - 1) / 400 : Nat)
    + (daysBeforeMonth y m : Int) + (d : Int)

/-- Python `datetime.strptime(s, "%Y-%m-%d")`: exactly four year digits,
one or two month digits in 1..12, one or two day digits in 1..31, the
whole string consumed, and the triple a real proleptic-Gregorian calendar
date with year at least 1 (`datetime.MINYEAR`). -/
def parseYMD (s : Str) : Option (Nat × Nat × Nat) :=
  match List.splitOn '-' s with
  | [ys, ms, ds] =>
    if ys.length = 4 && allDigits ys
        && decide (1 ≤ ms.length) && decide (ms.length ≤ 2) && allDigits ms
        && decide (1 ≤ ds.length) && decide (ds.length ≤ 2) && allDigits ds then
      let y := digitsToNat ys
      let m := digitsToNat ms
      let d := digitsToNat ds
      if decide (1 ≤ y) && decide (1 ≤ m) && decide (m ≤ 12)
          && decide (1 ≤ d) && decide (d ≤ daysInMonth y m) then
        some (y, m, d)
      else none
    else none
  | _ => none

/-- common.py `is_reasonable_future_date`, with `datetime.utcnow().date()`
supplied as its ordinal `todayOrd`; `lower = today - 1 day`,
`upper = today + max_months * 31 days`. -/
def is_reasonable_future_date (todayOrd : Int) (max_months : Nat) (date_iso : Option Str) : Bool :=
  match date_iso with
  | none => false
  | some s =>
    if s = [] then false
    else
      match parseYMD s with
      | none => false
      | some (y, m, d) =>
        decide (todayOrd - 1 ≤ toOrdinal y m d)
          && decide (toOrdinal y m d ≤ todayOrd + (max_months : Int) * 31)

/-! URL handling: `sanitize_url`, `urlparse` and `is_generic_url`. -/

/-- common.py `sanitize_url`. -/
def sanitize_url (url : Option Str) : Option Str :=
  let value := cleanTextOpt url
  if value = [] then none
  else
    let value := if "//".data.isPrefixOf value then "https:".data ++ value else value
    if "http://".data.isPrefixOf value || "https://".data.isPrefixOf value then some value
    else none

/-- Index of the first occurrence of `c` in `s` at or after position `i`. -/
def strFindFrom (s : Str) (c : Char) (i : Nat) : Option Nat :=
  match (s.drop i).findIdx? (· = c) with
  | some j => some (i + j)
  | none => none

/-- Index of the last occurrence of `c` in `s`. -/
def strRFind (s : Str) (c : Char) : Option Nat :=
  match s.reverse.findIdx? (· = c) with
  | some j => some (s.length - 1 - j)
  | none => none

/-- Split at the first occurrence of `sep`: `(before, after)`; if `sep`
does not occur, `(s, [])`. -/
def splitFirst (sep : Char) (s : Str) : Str × Str :=
  (s.takeWhile (· ≠ sep), (s.dropWhile (· ≠ sep)).drop 1)

/-- urllib `_splitparams`: drop a `;params` suffix of the last path segment. -/
def splitParams (url : Str) : Str :=
  match strRFind url '/' with
  | some k =>
    match strFindFrom url ';' k with
    | some i => url.take i
    | none => url
  | none =>
    match strFindFrom url ';' 0 with
    | some i => url.take i
    | none => url

structure ParsedUrl where
  netloc : Str
  path : Str
  query : Str
deriving DecidableEq

/-- urllib `urlparse` restricted to the `netloc`, `path` and `query`
fields the scraper reads, for values starting with `http://` or
`https://` (guaranteed by `sanitize_url`): the authority runs to the
first `/`, `?` or `#`; the fragment is split at the first `#`, then the
query at the first `?`; `;params` are split off the path. -/
def urlparseHttp (value : Str) : ParsedUrl :=
  let rest := (value.dropWhile (· ≠ ':')).drop 3
  let netloc := rest.takeWhile fun c => c ≠ '/' && c ≠ '?' && c ≠ '#'
  let after := rest.drop netloc.length
  let beforeFrag := (splitFirst '#' after).1
  let pq := splitFirst '?' beforeFrag
  { netloc := netloc, path := splitParams pq.1, query := pq.2 }

/-- Python `str.strip(chars)` for a single character. -/
def pyStripChar (c : Char) (s : Str) : Str :=
  ((s.dropWhile (· = c)).reverse.dropWhile (· = c)).reverse

/-- common.py `is_generic_url`. -/
def is_generic_url (url : Option Str) : Bool :=
  match sanitize_url url with
  | none => true
  | some value =>
    if value = [] then true
    else
      let parsed := urlparseHttp value
      let domain := pyLower parsed.netloc
      let path := pyStripChar '/' parsed.path
      let query := pyLower parsed.query
      if inStr "google.com".data domain && inStr "search".data path then true
      else if (domain = "ultrasignup.com".data || domain = "www.ultrasignup.com".data)
              && path = "register.aspx".data then !inStr "eid=".data query
      else if (domain = "itra.run".data || domain = "www.itra.run".data
              || domain = "ultrasignup.com".data || domain = "www.ultrasignup.com".data)
              && path = [] then true
      else if domain = "example.com".data || domain = "www.example.com".data then true
      else if path = [] && query = [] then true
      else false

/-! Price parsing. -/

/-- Currency detection branch of common.py `parse_price` (applied to the
cleaned text). -/
def detectCurrency (text : Str) : Option Str :=
  let upper := pyUpper text
  if inStr " EUR".data upper || inStr "€".data text then some "EUR".data
  else if inStr " USD".data upper || inStr "$".data text then some "USD".data
  else if inStr " GBP".data upper || inStr "£".data text then some "GBP".data
  else if inStr " MAD".data upper then some "MAD".data
  else none

/-- common.py `parse_price`.  The first regex match of
`(\d+(?:[.,]\d+)?)` is the maximal digit run at the first digit, plus an
optional `.`/`,` followed by a digit run; `,` is read as a decimal point.
The Python `float` is modelled exactly as a rational. -/
def parse_price (raw_price : Option Str) : Option ℚ × Option Str :=
  let text := cleanTextOpt raw_price
  if text = [] then (none, none)
  else
    let currency := detectCurrency text
    match text.findIdx? Char.isDigit with
    | none => (none, currency)
    | some i =>
      let s := text.drop i
      let ip := s.takeWhile Char.isDigit
      let rest := s.drop ip.length
      let fp :=
        match rest with
        | [] => ([] : Str)
        | c :: rest2 =>
          if (c = '.' || c = ',')
              && (match rest2.head? with
                  | some c2 => c2.isDigit
                  | none => false) then rest2.takeWhile Char.isDigit
          else []
      let value : ℚ := (digitsToNat ip : ℚ) + (digitsToNat fp : ℚ) / ((10 : ℚ) ^ fp.length)
      (some value, currency)

/-! The event record (models.py `RaceEvent`) and the pipeline
(main.py). -/

structure RaceEvent where
  id : Str
  name : Str
  date : Str
  city : Str
  country : Str
  countryCode : Str
  discipline : Str
  distance : Str
  elevationGain : Option Int
  description : Str
  registrationUrl : Str
  imageUrl : Str
  price : Option ℚ
  currency : Option Str
  registrationStatus : Option Str
  gpxUrl : Option Str
  websiteUrl : Option Str
  source : Option Str
  isFallback : Bool
deriving DecidableEq

structure SourceResult where
  name : Str
  events : List RaceEvent
  ok : Bool
  error : Option Str
deriving DecidableEq

/-- main.py `_source_runner`: the zero-argument fetch operation is
modelled by its outcome, either a list of events or a raised exception
message. -/
def _source_runner (name : Str) (fn : Except Str (List RaceEvent)) : SourceResult :=
  match fn with
  | Except.ok events => { name := name, events := events, ok := true, error := none }
  | Except.error exc => { name := name, events := [], ok := false, error := some exc }

/-- main.py `_normalize_name`:
`re.sub(r"[^a-z0-9]+", " ", name.lower()).strip()`. -/
def _normalize_name (name : Str) : Str :=
  stripSpaces (collapseRuns (fun c => !(c.isLower || c.isDigit)) (pyLower name))

/-- Python truthiness of an optional string. -/
def truthyOpt : Option Str → Bool
  | none => false
  | some s => decide (s ≠ [])

/-- main.py `_event_score`. -/
def _event_score (event : RaceEvent) : Nat :=
  (if event.registrationUrl ≠ [] && !is_generic_url (some event.registrationUrl) then 4 else 0)
    + (if event.description ≠ [] && decide (event.description.length > 60) then 1 else 0)
    + (if truthyOpt event.registrationStatus then 1 else 0)
    + (if event.price.isSome then 1 else 0)
    + (if truthyOpt event.websiteUrl then 1 else 0)
    + (if !event.isFallback then 2 else 0)

abbrev DedupKey := Str × Str × Str × Str

/-- The dedup key `(_normalize_name(name), date, countryCode or "", discipline)`. -/
def eventKey (event : RaceEvent) : DedupKey :=
  (_normalize_name event.name, event.date,
   (if event.countryCode = [] then [] else event.countryCode), event.discipline)

/-- Association-list lookup, modelling `dict.get`. -/
def alLookup {α β : Type} [DecidableEq α] (k : α) : List (α × β) → Option β
  | [] => none
  | (k1, v) :: rest => if k1 = k then some v else alLookup k rest

/-- Association-list assignment, modelling `d[k] = v` on an
insertion-ordered dict: update the existing slot in place, else append. -/
def alSet {α β : Type} [DecidableEq α] (k : α) (v : β) : List (α × β) → List (α × β)
  | [] => [(k, v)]
  | (k1, v1) :: rest => if k1 = k then (k, v) :: rest else (k1, v1) :: alSet k v rest

/-- One iteration of the main.py `_deduplicate` loop. -/
def dedupStep (chosen : List (DedupKey × RaceEvent)) (event : RaceEvent) :
    List (DedupKey × RaceEvent) :=
  let key := eventKey event
  match alLookup key chosen with
  | none => alSet key event chosen
  | some current =>
    if _event_score event > _event_score current then alSet key event chosen else chosen

/-- main.py `_deduplicate`: the dict's values in insertion order of
first-seen keys. -/
def _deduplicate (events : List RaceEvent) : List RaceEvent :=
  (events.foldl dedupStep []).map Prod.snd

/-- The acceptance predicate of main.py `_final_filter` (an event is kept
iff none of the three `continue`s fire). -/
def acceptEvent (todayOrd : Int) (event : RaceEvent) : Bool :=
  is_reasonable_future_date todayOrd 24 (some event.date)
    && (event.registrationUrl ≠ [] && !is_generic_url (some event.registrationUrl))
    && !is_noise_event event.name event.distance event.description

def dateLe (a b : RaceEvent) : Prop := a.date ≤ b.date

instance : DecidableRel dateLe := fun a b => inferInstanceAs (Decidable (a.date ≤ b.date))

instance : IsTotal RaceEvent dateLe := ⟨fun a b => le_total a.date b.date⟩

instance : IsTrans RaceEvent dateLe := ⟨fun _ _ _ h1 h2 => le_trans h1 h2⟩

/-- main.py `_final_filter`: keep the accepted events, then
`filtered.sort(key=lambda e: e.date)` — a stable sort by the date string,
modelled by insertion sort (extensionally equal to any stable sort by the
same key). -/
def _final_filter (todayOrd : Int) (events : List RaceEvent) : List RaceEvent :=
  List.insertionSort dateLe (events.filter (acceptEvent todayOrd))

/-! Identifier assignment (main.py `_ensure_unique_ids`). -/

def digitChar : Nat → Char
  | 0 => '0' | 1 => '1' | 2 => '2' | 3 => '3' | 4 => '4'
  | 5 => '5' | 6 => '6' | 7 => '7' | 8 => '8' | 9 => '9'
  | _ => '*'

/-- Decimal digits of `n` (most significant first), with explicit fuel so
the kernel can evaluate it; `fuel ≥ n` suffices. -/
def natToDigitsAux : Nat → Nat → Str
  | 0, _ => []
  | fuel + 1, n =>
    if n = 0 then [] else natToDigitsAux fuel (n / 10) ++ [digitChar (n % 10)]

/-- Python `str(n)` for a natural number. -/
def natToStr (n : Nat) : Str := if n = 0 then ['0'] else natToDigitsAux n n

/-- The numeric-suffix candidate `f"{base}-{counter}"`. -/
def mkCand (base : Str) (c : Nat) : Str := base ++ '-' :: natToStr c

/-- The `while f"{base}-{counter}" in seen: counter += 1` search, with
explicit fuel; `seen.length + 1` steps always suffice (the candidates are
pairwise distinct strings, so they cannot all be keys of `seen`). -/
def findFree (seen : List (Str × Nat)) (base : Str) : Nat → Nat → Nat
  | 0, c => c
  | fuel + 1, c =>
    if (alLookup (mkCand base c) seen).isSome then findFree seen base fuel (c + 1) else c

/-- One iteration of the main.py `_ensure_unique_ids` loop: returns the
event with its (possibly rewritten) id together with the updated `seen`
dict. -/
def assignStep (seen : List (Str × Nat)) (event : RaceEvent) :
    RaceEvent × List (Str × Nat) :=
  let base := event.id
  match alLookup base seen with
  | none => (event, alSet base 1 seen)
  | some n =>
    let candidate := base ++ '-' :: pyLower event.discipline
    match alLookup candidate seen with
    | none => ({ event with id := candidate }, alSet candidate 1 seen)
    | some _ =>
      let counter := findFree seen base (seen.length + 1) (n + 1)
      let newId := mkCand base counter
      ({ event with id := newId }, alSet base counter (alSet newId 1 seen))

/-- The `_ensure_unique_ids` loop with the `seen` dict threaded through. -/
def assignIds (seen : List (Str × Nat)) : List RaceEvent → List RaceEvent
  | [] => []
  | e :: rest =>
    let step := assignStep seen e
    step.1 :: assignIds step.2 rest

/-- main.py `_ensure_unique_ids` (the in-place id mutation is modelled by
returning the rewritten list). -/
def _ensure_unique_ids (events : List RaceEvent) : List RaceEvent :=
  assignIds [] events

/-- A neutral event record used to build concrete test inputs. -/
def baseEvent : RaceEvent :=
  { id := "event".data, name := "Sample Race".data, date := "2026-05-01".data,
    city := [], country := [], countryCode := "US".data,
    discipline := "Running".data, distance := "Marathon".data,
    elevationGain := none, description := [],
    registrationUrl := "https://example.org/race".data, imageUrl := [],
    price := none, currency := none, registrationStatus := none,
    gpxUrl := none, websiteUrl := none, source := none, isFallback := false }

/-- The `registrationUrl` summand of `_event_score` (worth 4). -/
def urlScorePart (event : RaceEvent) : Nat :=
  if event.registrationUrl ≠ [] && !is_generic_url (some event.registrationUrl) then 4 else 0

/-- The five remaining summands of `_event_score` (worth at most 6). -/
def nonUrlScorePart (event : RaceEvent) : Nat :=
  (if event.description ≠ [] && decide (event.description.length > 60) then 1 else 0)
    + (if truthyOpt event.registrationStatus then 1 else 0)
    + (if event.price.isSome then 1 else 0)
    + (if truthyOpt event.websiteUrl then 1 else 0)
    + (if !event.isFallback then 2 else 0)

/-- An event with the shared base id of the spec's id-collision example. -/
def c1Event (disc : Str) : RaceEvent :=
  { baseEvent with id := "city-race-2026".data, discipline := disc }

/-- A candidate with a specific (non-generic) registration URL and nothing
else: quality score 4 + 0 + 0 + 0 + 0 + 0 = 4. -/
def specificUrlEvent : RaceEvent :=
  { baseEvent with registrationUrl := "https://example.org/race".data, isFallback := true }

/-- A candidate with a generic registration URL (the `example.com` domain
is blocklisted) but every other quality component: score 0+1+1+1+1+2 = 6. -/
def genericUrlEvent : RaceEvent :=
  { baseEvent with
    registrationUrl := "https://example.com/race".data,
    description := "A very long description of the race course, its aid stations and its views.".data,
    registrationStatus := some "Open".data,
    price := some 50,
    websiteUrl := some "https://example.org".data,
    isFallback := false }

/-- A candidate identical to `baseEvent` except for a generic registration
URL: same non-URL quality components as `baseEvent`. -/
def genericUrlLive : RaceEvent :=
  { baseEvent with registrationUrl := "https://example.com/race".data }

/-! Lemmas about association lists (insertion-ordered dicts). -/

lemma alLookup_eq_none_iff {α β : Type} [DecidableEq α] (k : α) (l : List (α × β)) :
    alLookup k l = none ↔ k ∉ l.map Prod.fst := by
  induction l with
  | nil => simp [alLookup]
  | cons p rest ih =>
    obtain ⟨k1, v⟩ := p
    by_cases h : k1 = k
    · subst h; simp [alLookup]
    · simp [alLookup, h, ih, Ne.symm h]

lemma alLookup_alSet {α β : Type} [DecidableEq α] (k i : α) (v : β) (l : List (α × β)) :
    alLookup i (alSet k v l) = if k = i then some v else alLookup i l := by
  induction l with
  | nil => simp [alSet, alLookup]
  | cons p rest ih =>
    obtain ⟨k1, v1⟩ := p
    by_cases h : k1 = k
    · subst h
      by_cases hik : k1 = i <;> simp [alSet, alLookup, hik]
    · simp only [alSet, if_neg h, alLookup, ih]
      by_cases hik : k1 = i
      · subst hik
        simp [Ne.symm h]
      · simp [hik]

lemma alSet_absent {α β : Type} [DecidableEq α] (k : α) (v : β) :
    ∀ l : List (α × β), k ∉ l.map Prod.fst → alSet k v l = l ++ [(k, v)] := by
  intro l
  induction l with
  | nil => intro _; rfl
  | cons p rest ih =>
    obtain ⟨k1, v1⟩ := p
    intro h
    simp only [List.map_cons, List.mem_cons] at h
    push_neg at h
    simp only [alSet, if_neg (fun hh : k1 = k => h.1 hh.symm), List.cons_append,
      List.cons.injEq, true_and]
    exact ih h.2

lemma map_fst_alSet_present {α β : Type} [DecidableEq α] (k : α) (v : β) :
    ∀ l : List (α × β), k ∈ l.map Prod.fst → (alSet k v l).map Prod.fst = l.map Prod.fst := by
  intro l
  induction l with
  | nil => intro h; simp at h
  | cons p rest ih =>
    obtain ⟨k1, v1⟩ := p
    intro h
    by_cases hk : k1 = k
    · subst hk; simp [alSet]
    · simp only [List.map_cons, List.mem_cons] at h
      rcases h with h | h
      · exact absurd h.symm hk
      · simp [alSet, hk, ih h]

lemma mem_alSet {α β : Type} [DecidableEq α] (k : α) (v : β) :
    ∀ (l : List (α × β)) (p : α × β), p ∈ alSet k v l → p = (k, v) ∨ p ∈ l := by
  intro l
  induction l with
  | nil => intro p h; simpa [alSet] using h
  | cons q rest ih =>
    obtain ⟨k1, v1⟩ := q
    intro p h
    by_cases hk : k1 = k
    · subst hk
      have h2 : p = (k1, v) ∨ p ∈ rest := by
        have heq : alSet k1 v ((k1, v1) :: rest) = (k1, v) :: rest := by simp [alSet]
        rw [heq, List.mem_cons] at h
        exact h
      rcases h2 with rfl | h2
      · exact Or.inl rfl
      · exact Or.inr (List.mem_cons_of_mem _ h2)
    · have h2 : p = (k1, v1) ∨ p ∈ alSet k v rest := by
        have heq : alSet k v ((k1, v1) :: rest) = (k1, v1) :: alSet k v rest := by
          simp [alSet, hk]
        rw [heq, List.mem_cons] at h
        exact h
      rcases h2 with rfl | h2
      · exact Or.inr (List.mem_cons_self _ _)
      · rcases ih p h2 with h3 | h3
        · exact Or.inl h3
        · exact Or.inr (List.mem_cons_of_mem _ h3)

lemma isSome_alSet {α β : Type} [DecidableEq α] (k i : α) (v : β) (l : List (α × β))
    (h : (alLookup i l).isSome = true) : (alLookup i (alSet k v l)).isSome = true := by
  rw [alLookup_alSet]
  split <;> simp [h]

/-! Decimal rendering of counters: `natToStr` is injective, so the
numeric-suffix candidates are pairwise distinct strings. -/

lemma digitVal_digitChar : ∀ d : Nat, d < 10 → (digitChar d).toNat - 48 = d := by decide

lemma digitsToNat_append (xs : Str) (c : Char) :
    digitsToNat (xs ++ [c]) = 10 * digitsToNat xs + (c.toNat - 48) := by
  unfold digitsToNat
  rw [List.foldl_append]
  rfl

lemma digitsToNat_natToDigitsAux : ∀ fuel n : Nat, n ≤ fuel →
    digitsToNat (natToDigitsAux fuel n) = n := by
  intro fuel
  induction fuel with
  | zero =>
    intro n hn
    have h0 : n = 0 := Nat.le_zero.mp hn
    subst h0; rfl
  | succ fuel ih =>
    intro n hn
    by_cases h0 : n = 0
    · subst h0; rfl
    · have hdiv : n / 10 ≤ fuel := by
        have : n / 10 < n := Nat.div_lt_self (Nat.pos_of_ne_zero h0) (by norm_num)
        omega
      rw [show natToDigitsAux (fuel + 1) n = natToDigitsAux fuel (n / 10) ++ [digitChar (n % 10)]
          from by simp [natToDigitsAux, h0]]
      rw [digitsToNat_append, ih _ hdiv, digitVal_digitChar (n % 10) (Nat.mod_lt n (by norm_num))]
      omega

lemma digitsToNat_natToStr (n : Nat) : digitsToNat (natToStr n) = n := by
  by_cases h : n = 0
  · subst h; rfl
  · unfold natToStr
    rw [if_neg h]
    exact digitsToNat_natToDigitsAux n n le_rfl

lemma natToStr_injective : Function.Injective natToStr := by
  intro a b h
  have h2 := congrArg digitsToNat h
  rwa [digitsToNat_natToStr, digitsToNat_natToStr] at h2

lemma mkCand_injective (base : Str) : Function.Injective (mkCand base) := by
  intro a b h
  unfold mkCand at h
  have h2 := List.append_cancel_left h
  have h3 : natToStr a = natToStr b := by injection h2
  exact natToStr_injective h3

lemma mkCand_ne (base : Str) (c : Nat) : mkCand base c ≠ base := by
  intro h
  have h2 := congrArg List.length h
  simp [mkCand] at h2

/-! The numeric-suffix search always lands on an unseen key. -/

lemma exists_free (seen : List (Str × Nat)) (base : Str) (start : Nat) :
    ∃ k, k ≤ seen.length ∧ alLookup (mkCand base (start + k)) seen = none := by
  by_contra hcon
  push_neg at hcon
  have hmem : ∀ k, k ≤ seen.length → mkCand base (start + k) ∈ seen.map Prod.fst := by
    intro k hk
    by_contra hmm
    exact hcon k hk ((alLookup_eq_none_iff _ _).mpr hmm)
  have hinj : Function.Injective fun k : Nat => mkCand base (start + k) := by
    intro a b h
    have h2 := mkCand_injective base h
    omega
  have hnd : ((List.range (seen.length + 1)).map fun k => mkCand base (start + k)).Nodup :=
    (List.nodup_range _).map hinj
  have hsub : ((List.range (seen.length + 1)).map fun k => mkCand base (start + k))
      ⊆ seen.map Prod.fst := by
    intro x hx
    simp only [List.mem_map, List.mem_range] at hx
    obtain ⟨k, hk, rfl⟩ := hx
    exact hmem k (by omega)
  have hlen := (hnd.subperm hsub).length_le
  simp only [List.length_map, List.length_range] at hlen
  omega

lemma findFree_free (seen : List (Str × Nat)) (base : Str) :
    ∀ fuel c, (∃ k, k < fuel ∧ alLookup (mkCand base (c + k)) seen = none) →
      alLookup (mkCand base (findFree seen base fuel c)) seen = none := by
  intro fuel
  induction fuel with
  | zero =>
    intro c h
    obtain ⟨k, hk, _⟩ := h
    omega
  | succ fuel ih =>
    intro c h
    obtain ⟨k, hk, hfree⟩ := h
    by_cases hc : (alLookup (mkCand base c) seen).isSome
    · have hk0 : k ≠ 0 := by
        intro h0
        subst h0
        rw [Nat.add_zero] at hfree
        rw [hfree] at hc
        simp at hc
      rw [show findFree seen base (fuel + 1) c = findFree seen base fuel (c + 1)
          from by simp [findFree, hc]]
      refine ih (c + 1) ⟨k - 1, by omega, ?_⟩
      rw [show c + 1 + (k - 1) = c + k from by omega]
      exact hfree
    · rw [show findFree seen base (fuel + 1) c = c from by simp [findFree, hc]]
      cases hres : alLookup (mkCand base c) seen with
      | none => rfl
      | some v => rw [hres] at hc; simp at hc

/-! Per-step facts about the id assignment. -/

lemma assignStep_fresh (seen : List (Str × Nat)) (event : RaceEvent) :
    alLookup (assignStep seen event).1.id seen = none := by
  cases h1 : alLookup event.id seen with
  | none =>
    simp only [assignStep, h1]
  | some n =>
    cases h2 : alLookup (event.id ++ '-' :: pyLower event.discipline) seen with
    | none =>
      simp only [assignStep, h1, h2]
    | some m =>
      simp only [assignStep, h1, h2]
      obtain ⟨k, hk, hfree⟩ := exists_free seen event.id (n + 1)
      exact findFree_free seen event.id (seen.length + 1) (n + 1) ⟨k, by omega, hfree⟩

lemma assignStep_mono (seen : List (Str × Nat)) (event : RaceEvent) (i : Str)
    (h : (alLookup i seen).isSome = true) :
    (alLookup i (assignStep seen event).2).isSome = true := by
  cases h1 : alLookup event.id seen with
  | none =>
    simp only [assignStep, h1]
    exact isSome_alSet _ _ _ _ h
  | some n =>
    cases h2 : alLookup (event.id ++ '-' :: pyLower event.discipline) seen with
    | none =>
      simp only [assignStep, h1, h2]
      exact isSome_alSet _ _ _ _ h
    | some m =>
      simp only [assignStep, h1, h2]
      exact isSome_alSet _ _ _ _ (isSome_alSet _ _ _ _ h)

lemma assignStep_registered (seen : List (Str × Nat)) (event : RaceEvent) :
    (alLookup (assignStep seen event).1.id (assignStep seen event).2).isSome = true := by
  cases h1 : alLookup event.id seen with
  | none =>
    simp only [assignStep, h1, alLookup_alSet]
    simp
  | some n =>
    cases h2 : alLookup (event.id ++ '-' :: pyLower event.discipline) seen with
    | none =>
      simp only [assignStep, h1, h2, alLookup_alSet]
      simp
    | some m =>
      simp only [assignStep, h1, h2, alLookup_alSet]
      rw [if_neg (Ne.symm (mkCand_ne _ _))]
      simp

lemma assignIds_avoids : ∀ (evs : List RaceEvent) (seen : List (Str × Nat)) (i : Str),
    (alLookup i seen).isSome = true → i ∉ (assignIds seen evs).map (fun e => e.id) := by
  intro evs
  induction evs with
  | nil =>
    intro seen i _ h
    simp [assignIds] at h
  | cons e rest ih =>
    intro seen i hi
    simp only [assignIds, List.map_cons, List.mem_cons]
    push_neg
    constructor
    · intro heq
      have hfresh := assignStep_fresh seen e
      rw [← heq] at hfresh
      rw [hfresh] at hi
      simp at hi
    · exact ih _ _ (assignStep_mono seen e i hi)

lemma assignIds_nodup : ∀ (evs : List RaceEvent) (seen : List (Str × Nat)),
    ((assignIds seen evs).map (fun e => e.id)).Nodup := by
  intro evs
  induction evs with
  | nil =>
    intro seen
    simp [assignIds]
  | cons e rest ih =>
    intro seen
    simp only [assignIds, List.map_cons, List.nodup_cons]
    exact ⟨assignIds_avoids rest _ _ (assignStep_registered seen e), ih _⟩

/-! Invariants of the deduplication fold. -/

/-- Every stored entry is keyed by its event's key, and the stored keys
are pairwise distinct. -/
def dedupInv (chosen : List (DedupKey × RaceEvent)) : Prop :=
  (∀ p ∈ chosen, p.1 = eventKey p.2) ∧ (chosen.map Prod.fst).Nodup

lemma dedupStep_inv (chosen : List (DedupKey × RaceEvent)) (e : RaceEvent) (h : dedupInv chosen) :
    dedupInv (dedupStep chosen e) := by
  obtain ⟨hkeys, hnd⟩ := h
  cases hl : alLookup (eventKey e) chosen with
  | none =>
    have hmem : eventKey e ∉ chosen.map Prod.fst := (alLookup_eq_none_iff _ _).mp hl
    simp only [dedupStep, hl]
    rw [alSet_absent _ _ _ hmem]
    constructor
    · intro p hp
      rcases List.mem_append.mp hp with hp | hp
      · exact hkeys p hp
      · simp only [List.mem_singleton] at hp
        subst hp
        rfl
    · rw [List.map_append]
      refine List.Nodup.append hnd (by simp) ?_
      intro a ha hb
      simp only [List.map_cons, List.map_nil, List.mem_singleton] at hb
      subst hb
      exact hmem ha
  | some current =>
    simp only [dedupStep, hl]
    by_cases hscore : _event_score e > _event_score current
    · rw [if_pos hscore]
      have hmem : eventKey e ∈ chosen.map Prod.fst := by
        by_contra hh
        rw [(alLookup_eq_none_iff _ _).mpr hh] at hl
        exact Option.noConfusion hl
      constructor
      · intro p hp
        rcases mem_alSet _ _ _ p hp with rfl | hp2
        · rfl
        · exact hkeys p hp2
      · rw [map_fst_alSet_present _ _ _ hmem]
        exact hnd
    · rw [if_neg hscore]
      exact ⟨hkeys, hnd⟩

lemma foldl_dedupStep_inv (evs : List RaceEvent) :
    ∀ chosen, dedupInv chosen → dedupInv (List.foldl dedupStep chosen evs) := by
  induction evs with
  | nil => intro chosen h; exact h
  | cons e rest ih => intro chosen h; exact ih _ (dedupStep_inv _ e h)

lemma deduplicate_keys_nodup (events : List RaceEvent) :
    ((_deduplicate events).map eventKey).Nodup := by
  obtain ⟨hkeys, hnd⟩ := foldl_dedupStep_inv events [] ⟨by simp, by simp⟩
  unfold _deduplicate
  rw [List.map_map]
  have hmaps : (List.foldl dedupStep [] events).map (eventKey ∘ Prod.snd)
      = (List.foldl dedupStep [] events).map Prod.fst := by
    apply List.map_congr_left
    intro p hp
    exact (hkeys p hp).symm
  rw [hmaps]
  exact hnd

lemma foldl_dedupStep_fresh : ∀ (evs : List RaceEvent) (chosen : List (DedupKey × RaceEvent)),
    (∀ e ∈ evs, eventKey e ∉ chosen.map Prod.fst) → (evs.map eventKey).Nodup →
    List.foldl dedupStep chosen evs = chosen ++ evs.map (fun e => (eventKey e, e)) := by
  intro evs
  induction evs with
  | nil => intro chosen _ _; simp
  | cons e rest ih =>
    intro chosen hfresh hnd
    have he : eventKey e ∉ chosen.map Prod.fst := hfresh e (List.mem_cons_self _ _)
    have hl : alLookup (eventKey e) chosen = none := (alLookup_eq_none_iff _ _).mpr he
    have hstep : dedupStep chosen e = chosen ++ [(eventKey e, e)] := by
      simp only [dedupStep, hl]
      exact alSet_absent _ _ _ he
    have hnd2 : eventKey e ∉ rest.map eventKey ∧ (rest.map eventKey).Nodup := by
      rw [List.map_cons, List.nodup_cons] at hnd
      exact hnd
    have hfresh2 : ∀ e2 ∈ rest, eventKey e2 ∉ (chosen ++ [(eventKey e, e)]).map Prod.fst := by
      intro e2 he2 hmem
      rw [List.map_append] at hmem
      rcases List.mem_append.mp hmem with hcase | hcase
      · exact hfresh e2 (List.mem_cons_of_mem _ he2) hcase
      · simp only [List.map_cons, List.map_nil, List.mem_singleton] at hcase
        exact hnd2.1 (hcase ▸ List.mem_map_of_mem _ he2)
    rw [List.foldl_cons, hstep, ih _ hfresh2 hnd2.2, List.append_assoc]
    rfl

/-! Stability of the date sort: filtering the sorted list down to one date
value gives the same sublist as filtering the unsorted list. -/

lemma filter_orderedInsert (d : Str) (a : RaceEvent) :
    ∀ l : List RaceEvent,
      (List.orderedInsert dateLe a l).filter (fun e => decide (e.date = d))
        = ((a :: l).filter (fun e => decide (e.date = d))) := by
  intro l
  induction l with
  | nil => rfl
  | cons b l ih =>
    by_cases hab : dateLe a b
    · simp [List.orderedInsert, hab]
    · rw [List.orderedInsert, if_neg hab]
      by_cases hbd : b.date = d
      · by_cases had : a.date = d
        · exact absurd (show dateLe a b from by unfold dateLe; rw [had, hbd]) hab
        · simp [List.filter_cons, hbd, had, ih]
      · by_cases had : a.date = d <;> simp [List.filter_cons, hbd, had, ih]

lemma filter_insertionSort (d : Str) :
    ∀ l : List RaceEvent,
      (List.insertionSort dateLe l).filter (fun e => decide (e.date = d))
        = l.filter (fun e => decide (e.date = d)) := by
  intro l
  induction l with
  | nil => rfl
  | cons a l ih =>
    rw [List.insertionSort, filter_orderedInsert, List.filter_cons, List.filter_cons, ih]

/-- The quality score is the URL summand plus the rest. -/
lemma _event_score_split (e : RaceEvent) :
    _event_score e = urlScorePart e + nonUrlScorePart e := by
  unfold _event_score urlScorePart nonUrlScorePart
  omega

/-! Claim theorems. -/

/-- C1 (counterexample): on three events with base id `city-race-2026` and
disciplines Running, Running, Trail, `_ensure_unique_ids` does not produce
the id sequence claimed by the spec — the second event does not get the
numeric suffix `-2`. -/
theorem ensure_unique_ids_discipline_first_counterexample :
    (_ensure_unique_ids
        [c1Event "Running".data, c1Event "Running".data, c1Event "Trail".data]).map (fun e => e.id)
      ≠ ["city-race-2026".data, "city-race-2026-2".data, "city-race-2026-trail".data] := by
  decide

/-- C1 (amended): the resulting ids are `city-race-2026`,
`city-race-2026-running` and `city-race-2026-trail` — the second event's
discipline suffix `-running` is still unseen when it is processed, so it
is adopted; the numeric suffix would only appear for a third Running
event with the same base id. -/
theorem ensure_unique_ids_discipline_first :
    (_ensure_unique_ids
        [c1Event "Running".data, c1Event "Running".data, c1Event "Trail".data]).map (fun e => e.id)
      = ["city-race-2026".data, "city-race-2026-running".data, "city-race-2026-trail".data] := by
  decide

/-- C2 (counterexample): on the input `"FEE EUR"`, `parse_price` finds no
decimal number, yet returns `(none, some "EUR")` rather than the claimed
`(none, none)` — a non-null currency together with a null amount. -/
theorem parse_price_null_pair_counterexample :
    (cleanTextOpt (some "FEE EUR".data)).findIdx? Char.isDigit = none
    ∧ parse_price (some "FEE EUR".data) ≠ ((none : Option ℚ), (none : Option Str))
    ∧ parse_price (some "FEE EUR".data) = ((none : Option ℚ), some "EUR".data) := by
  exact ⟨by decide, by decide, by decide⟩

/-- C2 (amended): when `parse_price` finds no decimal number (no digit in
the cleaned text) the amount is null, while the currency field still
carries whatever the currency detection produced (null only when the
cleaned text is empty or holds no currency token). -/
theorem parse_price_no_number (raw : Option Str)
    (h : (cleanTextOpt raw).findIdx? Char.isDigit = none) :
    (parse_price raw).1 = none
    ∧ (parse_price raw).2
        = (if cleanTextOpt raw = [] then none else detectCurrency (cleanTextOpt raw)) := by
  by_cases he : cleanTextOpt raw = []
  · simp [parse_price, he]
  · simp [parse_price, he, h]

/-- C2 (witness): the amended statement evaluated at `"FEE EUR"`. -/
theorem parse_price_no_number_witness :
    (cleanTextOpt (some "FEE EUR".data)).findIdx? Char.isDigit = none
    ∧ (parse_price (some "FEE EUR".data)).1 = none
    ∧ (parse_price (some "FEE EUR".data)).2
        = (if cleanTextOpt (some "FEE EUR".data) = [] then none
           else detectCurrency (cleanTextOpt (some "FEE EUR".data))) :=
  ⟨by decide, (parse_price_no_number (some "FEE EUR".data) (by decide)).1,
    (parse_price_no_number (some "FEE EUR".data) (by decide)).2⟩

/-- C3: after `_ensure_unique_ids` runs over any list of events, no two
events in the resulting list share an id. -/
theorem ensure_unique_ids_nodup (events : List RaceEvent) :
    ((_ensure_unique_ids events).map (fun e => e.id)).Nodup :=
  assignIds_nodup events []

/-- C4 (counterexample): two events sharing the identity key, one with a
specific registration URL and one with a generic one, where `_deduplicate`
retains the generic-URL event: the generic event's other quality
components (long description, status, price, website, non-fallback) score
6, beating the specific event's 4. -/
theorem dedup_generic_url_wins_counterexample :
    eventKey specificUrlEvent = eventKey genericUrlEvent
    ∧ specificUrlEvent.registrationUrl ≠ []
    ∧ is_generic_url (some specificUrlEvent.registrationUrl) = false
    ∧ is_generic_url (some genericUrlEvent.registrationUrl) = true
    ∧ _deduplicate [specificUrlEvent, genericUrlEvent] = [genericUrlEvent]
    ∧ genericUrlEvent ≠ specificUrlEvent := by
  exact ⟨by decide, by decide, by decide, by decide, by decide, by decide⟩

/-- C4 (amended): for candidates sharing the identity key where one has a
present non-generic registration URL and the other a generic or absent
one, `_deduplicate` retains the specific-URL one regardless of input
order, provided the two events score equally on the non-URL quality
components — the +4 URL summand then dominates. -/
theorem dedup_specific_url_retained (e1 e2 : RaceEvent)
    (hkey : eventKey e1 = eventKey e2)
    (h1 : e1.registrationUrl ≠ [] ∧ is_generic_url (some e1.registrationUrl) = false)
    (h2 : e2.registrationUrl = [] ∨ is_generic_url (some e2.registrationUrl) = true)
    (heq : nonUrlScorePart e1 = nonUrlScorePart e2) :
    _deduplicate [e1, e2] = [e1] ∧ _deduplicate [e2, e1] = [e1] := by
  have hu1 : urlScorePart e1 = 4 := by
    unfold urlScorePart
    rw [if_pos]
    simp [h1.1, h1.2]
  have hu2 : urlScorePart e2 = 0 := by
    unfold urlScorePart
    rw [if_neg]
    rcases h2 with h | h <;> simp [h]
  have hgt : _event_score e2 < _event_score e1 := by
    rw [_event_score_split, _event_score_split, hu1, hu2, heq]
    omega
  constructor
  · unfold _deduplicate
    simp only [List.foldl_cons, List.foldl_nil]
    rw [show dedupStep [] e1 = [(eventKey e1, e1)] from by simp [dedupStep, alLookup, alSet]]
    rw [show dedupStep [(eventKey e1, e1)] e2 = [(eventKey e1, e1)] from by
      simp only [dedupStep,
        show alLookup (eventKey e2) [(eventKey e1, e1)] = some e1 from by
          simp [alLookup, hkey]]
      rw [if_neg (by omega)]]
    rfl
  · unfold _deduplicate
    simp only [List.foldl_cons, List.foldl_nil]
    rw [show dedupStep [] e2 = [(eventKey e2, e2)] from by simp [dedupStep, alLookup, alSet]]
    rw [show dedupStep [(eventKey e2, e2)] e1 = [(eventKey e1, e1)] from by
      simp only [dedupStep,
        show alLookup (eventKey e1) [(eventKey e2, e2)] = some e2 from by
          simp [alLookup, hkey]]
      rw [if_pos hgt]
      simp [alSet, hkey]]
    rfl

/-- C4 (witness): the amended statement evaluated on a specific-URL
candidate and a generic-URL candidate with equal non-URL components. -/
theorem dedup_specific_url_retained_witness :
    eventKey baseEvent = eventKey genericUrlLive
    ∧ (baseEvent.registrationUrl ≠ []
        ∧ is_generic_url (some baseEvent.registrationUrl) = false)
    ∧ (genericUrlLive.registrationUrl = []
        ∨ is_generic_url (some genericUrlLive.registrationUrl) = true)
    ∧ nonUrlScorePart baseEvent = nonUrlScorePart genericUrlLive
    ∧ _deduplicate [baseEvent, genericUrlLive] = [baseEvent]
    ∧ _deduplicate [genericUrlLive, baseEvent] = [baseEvent] := by
  refine ⟨by decide, ⟨by decide, by decide⟩, Or.inr (by decide), by decide, ?_, ?_⟩
  · exact (dedup_specific_url_retained baseEvent genericUrlLive (by decide)
      ⟨by decide, by decide⟩ (Or.inr (by decide)) (by decide)).1
  · exact (dedup_specific_url_retained baseEvent genericUrlLive (by decide)
      ⟨by decide, by decide⟩ (Or.inr (by decide)) (by decide)).2

/-- C5: `_final_filter` returns exactly the events accepted by the three
checks (reasonable future date with `max_months = 24`, present non-generic
registration URL, not a noise event), sorted ascending by date with the
original relative order preserved among equal dates; a null date is never
reasonable. -/
theorem final_filter_characterization (todayOrd : Int) (events : List RaceEvent) :
    (_final_filter todayOrd events).Perm (events.filter (acceptEvent todayOrd))
    ∧ List.Sorted dateLe (_final_filter todayOrd events)
    ∧ (∀ d : Str,
        (_final_filter todayOrd events).filter (fun e => decide (e.date = d))
          = (events.filter (acceptEvent todayOrd)).filter (fun e => decide (e.date = d)))
    ∧ is_reasonable_future_date todayOrd 24 none = false := by
  refine ⟨List.perm_insertionSort dateLe _, List.sorted_insertionSort dateLe _, ?_, rfl⟩
  intro d
  simp only [_final_filter]
  exact filter_insertionSort d _

/-- C6: `infer_distance` is the first-match scan over the spec's fixed
rule priority (Half-Ironman, 5k, 10k, half-marathon, marathon,
ultra/trail, triathlon, generic running, default Marathon); in particular
`"trail marathon"` yields Marathon and `"half ironman 5k"` yields Half
Ironman. -/
theorem infer_distance_priority :
    (∀ name distances hint : Str,
      infer_distance name distances hint
        = specFirstMatch specDistanceRules
            (pyLower (clean_text (joinSp name distances hint))) "Marathon".data)
    ∧ infer_distance "trail marathon".data [] [] = "Marathon".data
    ∧ infer_distance "half ironman 5k".data [] [] = "Half Ironman".data := by
  refine ⟨fun name distances hint => rfl, by decide, by decide⟩

/-- C7: `_source_runner` wraps a successful fetch as
`{ok := true, events, error := none}` and any raised error as
`{ok := false, events := [], error := message}`; no error escapes. -/
theorem source_runner_contract (name : Str) (events : List RaceEvent) (msg : Str) :
    _source_runner name (Except.ok events)
        = { name := name, events := events, ok := true, error := none }
    ∧ _source_runner name (Except.error msg)
        = { name := name, events := [], ok := false, error := some msg } :=
  ⟨rfl, rfl⟩

/-- C8: `_deduplicate` is idempotent — applied to its own output it
returns that output unchanged (the output's keys are already pairwise
distinct, so every event is first-seen and kept). -/
theorem deduplicate_idempotent (events : List RaceEvent) :
    _deduplicate (_deduplicate events) = _deduplicate events := by
  have hnd := deduplicate_keys_nodup events
  rw [show _deduplicate (_deduplicate events)
      = (List.foldl dedupStep [] (_deduplicate events)).map Prod.snd from rfl]
  rw [foldl_dedupStep_fresh (_deduplicate events) [] (by simp) hnd]
  simp only [List.nil_append, List.map_map]
  rw [show (Prod.snd ∘ fun e : RaceEvent => (eventKey e, e)) = id from rfl, List.map_id]

/-- C9: on two events sharing the identity key with equal quality scores,
`_deduplicate` retains the one appearing earlier in the input — the stored
record is replaced only on a strictly greater score. -/
theorem deduplicate_tie_keeps_first (e1 e2 : RaceEvent) (hkey : eventKey e1 = eventKey e2)
    (hscore : _event_score e1 = _event_score e2) :
    _deduplicate [e1, e2] = [e1] := by
  unfold _deduplicate
  simp only [List.foldl_cons, List.foldl_nil]
  rw [show dedupStep [] e1 = [(eventKey e1, e1)] from by simp [dedupStep, alLookup, alSet]]
  rw [show dedupStep [(eventKey e1, e1)] e2 = [(eventKey e1, e1)] from by
    simp only [dedupStep,
      show alLookup (eventKey e2) [(eventKey e1, e1)] = some e1 from by
        simp [alLookup, hkey]]
    rw [if_neg (by omega)]]
  rfl

/-- C9 (witness): two distinct events with the same key and score — the
earlier one is retained. -/
theorem deduplicate_tie_keeps_first_witness :
    eventKey baseEvent = eventKey { baseEvent with city := "Paris".data }
    ∧ _event_score baseEvent = _event_score { baseEvent with city := "Paris".data }
    ∧ _deduplicate [baseEvent, { baseEvent with city := "Paris".data }] = [baseEvent] :=
  ⟨by decide, by decide,
    deduplicate_tie_keeps_first baseEvent { baseEvent with city := "Paris".data }
      (by decide) (by decide)⟩

/-- C10: whenever `sanitize_url` returns null (null input, input empty
after whitespace normalization, or input not starting with `http://` or
`https://` after protocol-relative normalization), `is_generic_url`
returns true rather than failing. -/
theorem generic_url_of_sanitize_none (url : Option Str) (h : sanitize_url url = none) :
    is_generic_url url = true := by
  simp [is_generic_url, h]

/-- C10 (witness): a URL with an unsupported scheme is unsanitizable and
classified generic. -/
theorem generic_url_of_sanitize_none_witness :
    sanitize_url (some "ftp://example.org/race".data) = none
    ∧ is_generic_url (some "ftp://example.org/race".data) = true :=
  ⟨by decide, generic_url_of_sanitize_none (some "ftp://example.org/race".data) (by decide)⟩

end WikiRace
